import Mathlib

/-!
Verification development for the DIG network server (content-routing
reverse proxy).  Paths and other request strings are embedded as
`List Char`; JavaScript string operations (`split`, `join`, template
literals, truthiness) are modelled by the explicit functions below.
Peer-routing state uses `String` and `Int` (JS numbers are
integer-valued on every field involved).
-/

set_option autoImplicit false

namespace DigServer

/-! ### JavaScript string splitting and joining

`splitOnChar c s` models `s.split(c)` for a one-character separator:
it always returns at least one (possibly empty) chunk, one more chunk
per separator occurrence. -/

def splitOnChar (c : Char) : List Char → List (List Char)
  | [] => [[]]
  | x :: xs =>
    if x = c then [] :: splitOnChar c xs
    else
      match splitOnChar c xs with
      | [] => [[x]]
      | r :: rs => (x :: r) :: rs

/-- Model of `array.join("/")` for an array of strings. -/
def joinSegs : List (List Char) → List Char
  | [] => []
  | [a] => a
  | a :: b :: rest => a ++ '/' :: joinSegs (b :: rest)

/-- Model of `path.split("/").filter((part) => part.length > 0)`. -/
def segments (p : List Char) : List (List Char) :=
  (splitOnChar '/' p).filter (fun s => s.length > 0)

/-! ### `removeDuplicatePathPart` (src/src/middleware/parseUdi.ts)

Splits the path into non-empty segments; if the first two segments are
identical and at least 64 characters long, the second is dropped; the
result is re-joined behind a leading slash. -/

/-- The segment transformation inside `removeDuplicatePathPart`:
`parts.splice(1, 1)` when `firstPart === secondPart && firstPart.length >= 64`. -/
def dedupHead : List (List Char) → List (List Char)
  | a :: b :: rest => if a = b ∧ 64 ≤ a.length then a :: rest else a :: b :: rest
  | l => l

def removeDuplicatePathPart (p : List Char) : List Char :=
  '/' :: joinSegs (dedupHead (segments p))

/-! ### UDI segment parsing (src/src/middleware/parseUdi.ts, lines 84-114)

`parseUdiSegment` takes the already-normalized path and reproduces the
extraction of `chainName`, `storeId`, `rootHash`, `appendPath` and the
raw first segment.  `chainName`/`rootHash` are `Option` (JS `null`),
`storeId` starts as the empty string. -/

structure UdiParse where
  chainName : Option (List Char)
  storeId : List Char
  rootHash : Option (List Char)
  appendPath : List Char
  pathSegment : List Char
  deriving DecidableEq, Repr

def parseUdiSegment (modifiedPath : List Char) : UdiParse :=
  let pathSegments := segments modifiedPath
  let pathSegment := pathSegments.headD []
  let originalPathSegments := pathSegments.tail
  let appendPath0 :=
    if originalPathSegments.length > 0 then '/' :: joinSegs originalPathSegments else []
  let parts := splitOnChar '.' pathSegment
  let appendPath :=
    if parts.length = 1 ∧ (parts.headD []).length ≠ 64 then
      '/' :: (parts.headD []) ++ appendPath0
    else appendPath0
  match parts with
  | [a, b, c] =>
    { chainName := some a, storeId := b, rootHash := some c
      appendPath := appendPath, pathSegment := pathSegment }
  | [a, b] =>
    if a.length = 64 then
      { chainName := none, storeId := a, rootHash := some b
        appendPath := appendPath, pathSegment := pathSegment }
    else
      { chainName := some a, storeId := b, rootHash := none
        appendPath := appendPath, pathSegment := pathSegment }
  | [a] =>
    { chainName := none, storeId := a, rootHash := none
      appendPath := appendPath, pathSegment := pathSegment }
  | _ =>
    { chainName := none, storeId := [], rootHash := none
      appendPath := appendPath, pathSegment := pathSegment }

/-- The UDI segment grammar as the amended claim states it: written by
cases on the dot-split of the first segment.  One part of length 64 is a
bare storeId; one part of another length is folded into the subpath AND
still recorded as the (invalid) storeId; four or more parts leave the
storeId empty and drop the segment from the subpath, so both of the last
two shapes fall into the invalid-storeId handling. -/
def udiGrammarAmended (modifiedPath : List Char) : UdiParse :=
  let pathSegments := segments modifiedPath
  let pathSegment := pathSegments.headD []
  let rest :=
    if pathSegments.tail.length > 0 then '/' :: joinSegs pathSegments.tail else []
  let parts := splitOnChar '.' pathSegment
  match parts with
  | [a] =>
    if a.length = 64 then
      { chainName := none, storeId := a, rootHash := none
        appendPath := rest, pathSegment := pathSegment }
    else
      { chainName := none, storeId := a, rootHash := none
        appendPath := '/' :: a ++ rest, pathSegment := pathSegment }
  | [a, b] =>
    if a.length = 64 then
      { chainName := none, storeId := a, rootHash := some b
        appendPath := rest, pathSegment := pathSegment }
    else
      { chainName := some a, storeId := b, rootHash := none
        appendPath := rest, pathSegment := pathSegment }
  | [a, b, c] =>
    { chainName := some a, storeId := b, rootHash := some c
      appendPath := rest, pathSegment := pathSegment }
  | _ =>
    { chainName := none, storeId := [], rootHash := none
      appendPath := rest, pathSegment := pathSegment }

/-! ### JavaScript truthiness and the `udiData` cookie -/

/-- JS truthiness of a string-valued variable that may be `null` or
`undefined`: falsy iff absent or the empty string. -/
def jsFalsy : Option (List Char) → Bool
  | none => true
  | some s => s.isEmpty

/-- Model of `a || b` for string-valued `a`. -/
def jsOr (a b : Option (List Char)) : Option (List Char) :=
  if jsFalsy a then b else a

/-- Model of strict equality `x === y` between possibly-undefined cookie
fields and a string-or-null variable: true only when both sides are
present and equal (in JS, `undefined === null` is `false`). -/
def jsStrictEq (a b : Option (List Char)) : Bool :=
  match a, b with
  | some x, some y => x = y
  | _, _ => false

/-- Template-literal interpolation: `undefined` prints as the text
"undefined". -/
def interp : Option (List Char) → List Char
  | none => "undefined".toList
  | some s => s

/-- Contents of the `udiData` cookie; each field may be missing. -/
structure UdiCookie where
  chainName : Option (List Char)
  storeId : Option (List Char)
  rootHash : Option (List Char)
  deriving DecidableEq, Repr

/-- Cookie adoption (src/src/middleware/parseUdi.ts lines 147-164):
when chainName or rootHash is falsy and a cookie is present, the missing
fields are taken from the cookie exactly when
`!storeId || cookieStoreId === storeId || cookieRootHash === rootHash`. -/
def adoptCookie (storeId : List Char) (chainName rootHash : Option (List Char))
    (cookie : Option UdiCookie) : Option (List Char) × Option (List Char) :=
  if jsFalsy chainName || jsFalsy rootHash then
    match cookie with
    | some c =>
      if storeId.isEmpty || jsStrictEq c.storeId (some storeId)
          || jsStrictEq c.rootHash rootHash then
        (jsOr chainName c.chainName, jsOr rootHash c.rootHash)
      else (chainName, rootHash)
    | none => (chainName, rootHash)
  else (chainName, rootHash)

/-! ### Redirect filters (src/src/middleware/parseUdi.ts lines 22-58) -/

/-- Model of `hay.includes(needle)`: substring containment. -/
def jsIncludes (needle : List Char) : List Char → Bool
  | [] => needle.isPrefixOf []
  | x :: t => needle.isPrefixOf (x :: t) || jsIncludes needle t

/-- Function `applyOriginPathFilter`: with an `x-origin-path` header, drop the
first segment of the redirect URL when it contains the header value.
Returns `none` for the corner where the URL has no non-empty segment and
a header is set: there `redirectParts[0]` is `undefined` in JS and
`.includes` throws (caught by the middleware boundary). -/
def applyOriginPathFilter (redirectUrl : List Char) (xOriginPath : Option (List Char)) :
    Option (List Char) :=
  match xOriginPath with
  | none => some redirectUrl
  | some xop =>
    match segments redirectUrl with
    | [] => none
    | first :: rest =>
      some ('/' :: joinSegs (if jsIncludes xop first then rest else first :: rest))

/-- Function `applyHostFilter`: on CloudFront requests (header `x-amz-cf-id`
present) the redirect is absolutized against the effective host (the
`x-forwarded-host` resolution is folded into the `host` field of the
request model). -/
def applyHostFilter (cloudFront : Bool) (host redirectUrl : List Char) : List Char :=
  if cloudFront then "https://".toList ++ host ++ redirectUrl else redirectUrl

/-! ### The `parseUdi` middleware -/

/-- Inputs of one request to `parseUdi`, with the external
`fetchCoinInfo` call represented by its successful result. -/
structure UdiRequest where
  originalUrl : List Char
  xOriginPath : Option (List Char)
  cloudFront : Bool
  host : List Char
  referrer : List Char
  cookie : Option UdiCookie
  fetchedRootHash : List Char
  deriving Repr

/-- Observable outcome of the `parseUdi` middleware. -/
inductive UdiOutcome where
  /-- Early `next()` at the `/.well-known` exit, request untouched. -/
  | next : UdiOutcome
  | redirect (location : List Char) : UdiOutcome
  | badRequest (msg : List Char) : UdiOutcome
  /-- 400 with the unknown-chain HTML view. -/
  | unknownChain (storeId chainName : List Char) : UdiOutcome
  /-- Final `next()` with the resolved fields attached and the cookie set. -/
  | forward (chainName storeId rootHash : List Char) : UdiOutcome
  /-- 500 from the catch block. -/
  | serverError : UdiOutcome
  deriving DecidableEq, Repr

/-- Build one redirect response: origin-path filter, then host filter. -/
def buildRedirect (req : UdiRequest) (u : List Char) : UdiOutcome :=
  match applyOriginPathFilter u req.xOriginPath with
  | none => .serverError
  | some u2 => .redirect (applyHostFilter req.cloudFront req.host u2)

/-- Model of `queryString ? "?" + queryString : ""`. -/
def querySuffix : Option (List Char) → List Char
  | none => []
  | some q => if q.isEmpty then [] else '?' :: q

/-- The UDI parse of a request exactly as the middleware computes it:
the path is everything before the first `?`, normalized by
`removeDuplicatePathPart` and fed to the segment parser. -/
def parsedOf (req : UdiRequest) : UdiParse :=
  parseUdiSegment (removeDuplicatePathPart ((splitOnChar '?' req.originalUrl).headD []))

/-- The resolution state machine of `parseUdi` after segment parsing
(src/src/middleware/parseUdi.ts lines 126-217): the invalid-storeId
responses, cookie adoption, the two chain-defaulting redirects, the
chain whitelist, and the oracle fallback for a missing root hash. -/
def parseUdiResolve (req : UdiRequest) (parsed : UdiParse)
    (queryString : Option (List Char)) : UdiOutcome :=
  if parsed.storeId.isEmpty || parsed.storeId.length ≠ 64 then
    match req.cookie with
    | some c =>
      buildRedirect req
        ('/' :: (interp c.chainName ++ '.' :: interp c.storeId ++ parsed.appendPath))
    | none =>
      if req.referrer.isEmpty then .badRequest ("Invalid or missing storeId.".toList)
      else buildRedirect req (req.referrer ++ parsed.appendPath)
  else
    let adopted := adoptCookie parsed.storeId parsed.chainName parsed.rootHash req.cookie
    let chainName := adopted.1
    let rootHash := adopted.2
    if jsFalsy chainName && jsFalsy rootHash then
      buildRedirect req
        ("/chia.".toList ++ parsed.storeId ++ '.' :: req.fetchedRootHash
          ++ parsed.appendPath ++ querySuffix queryString)
    else if jsFalsy chainName then
      buildRedirect req
        ("/chia.".toList ++ parsed.pathSegment ++ parsed.appendPath
          ++ querySuffix queryString)
    else if chainName.getD [] ≠ "chia".toList then
      .unknownChain parsed.storeId (chainName.getD [])
    else if jsFalsy rootHash then
      .forward (chainName.getD []) parsed.storeId req.fetchedRootHash
    else
      .forward (chainName.getD []) parsed.storeId (rootHash.getD [])

/-- The `parseUdi` middleware (src/src/middleware/parseUdi.ts lines
60-222): the `/.well-known` early exit, the split at `?`,
`removeDuplicatePathPart`, segment parsing, then the resolution state
machine. -/
def parseUdiModel (req : UdiRequest) : UdiOutcome :=
  if ("/.well-known".toList).isPrefixOf req.originalUrl then .next
  else parseUdiResolve req (parsedOf req) ((splitOnChar '?' req.originalUrl).get? 1)

/-! ### The wired peer router (src/src/middleware/networkRouter.ts)

The variant imported by `src/src/app.ts`: random choice among
non-blacklisted cached peers, no validation.  Only the parts observable
per request are modelled; the epoch-refresh calls mutate caches but
cannot change this request's response shape beyond the cache contents,
which are inputs here. -/

structure SimplePeer where
  ipAddress : List Char
  weight : Int
  failureCount : Int
  lastCheck : Int
  lastFailure : Int
  deriving DecidableEq, Repr

structure RouterEnv where
  /-- Contents of `peerCache`, per storeId. -/
  cache : List Char → Option (List SimplePeer)
  /-- Membership test of `offlinePeersCache`. -/
  offline : List Char → Bool

inductive RouterOutcome where
  /-- 500 `"No available peers for storeId: <id>."`. -/
  | noPeers (storeId : List Char) : RouterOutcome
  /-- Proxy dispatched to the selected peer. -/
  | proxied (peerIp contentUrl : List Char) : RouterOutcome
  /-- 500 `error.message` from the handler's catch block. -/
  | caughtError : RouterOutcome
  deriving DecidableEq, Repr

/-- Function `getNextPeer`: filter blacklisted peers and choose one at random;
the random index is an explicit parameter. -/
def getNextPeer (env : RouterEnv) (storeId : List Char) (pick : Nat) :
    Option (List Char) :=
  match env.cache storeId with
  | none => none
  | some peers =>
    let availablePeers := peers.filter (fun p => !(env.offline p.ipAddress))
    match availablePeers with
    | [] => none
    | a :: rest => some (((a :: rest).getD (pick % (a :: rest).length) a).ipAddress)

/-- Upstream URL `http://<ip>:4161/<chain>.<store>.<root>[/<key>]`. -/
def contentUrlOf (peerIp chainName storeId rootHash key : List Char) : List Char :=
  "http://".toList ++ peerIp ++ ":4161/".toList ++ chainName ++ '.' :: storeId
    ++ '.' :: rootHash ++ (if key.isEmpty then [] else '/' :: key)

/-- The wired `networkRouter` handler.  `udi` carries the fields the
resolver attached to the request; `none` models a request on which
`parseUdi` never ran its assignment (then `storeId` is `undefined`, and
`peerCache.get(undefined)` throws node-cache's key-type error, caught at
the handler boundary as a 500). -/
def networkRouterSimple (env : RouterEnv)
    (udi : Option (List Char × List Char × List Char)) (key : List Char)
    (pick : Nat) : RouterOutcome :=
  match udi with
  | none => .caughtError
  | some (chainName, storeId, rootHash) =>
    match getNextPeer env storeId pick with
    | none => .noPeers storeId
    | some peerIp => .proxied peerIp (contentUrlOf peerIp chainName storeId rootHash key)

/-! ### The application pipeline (src/src/app.ts)

`cookieParser` and `cors` are transparent; `appRoutes` serves only
`GET /health`; then `parseUdi`, then `networkRouter`. -/

inductive PipelineOutcome where
  | health : PipelineOutcome
  | resolver (o : UdiOutcome) : PipelineOutcome
  | routed (o : RouterOutcome) : PipelineOutcome
  /-- No middleware responded (what a full bypass would produce). -/
  | untouched : PipelineOutcome
  deriving DecidableEq, Repr

/-- Model of `req.path.split("/").slice(2).join("/")`. -/
def keyOfPath (path : List Char) : List Char :=
  joinSegs ((splitOnChar '/' path).drop 2)

def appPipeline (req : UdiRequest) (env : RouterEnv) (pick : Nat) : PipelineOutcome :=
  if req.originalUrl = "/health".toList then .health
  else
    let path := (splitOnChar '?' req.originalUrl).headD []
    let key := keyOfPath path
    match parseUdiModel req with
    | .next => .routed (networkRouterSimple env none key pick)
    | .forward chainName storeId rootHash =>
      .routed (networkRouterSimple env (some (chainName, storeId, rootHash)) key pick)
    | o => .resolver o

/-! ### Peer registry data model (src/unnamed/part_000, part_002)

`PeerInfo` as in the two richer router revisions; all numeric fields
are integer-valued JS numbers. -/

structure PeerInfo where
  ipAddress : String
  weight : Int
  failureCount : Int
  successCount : Int
  lastCheck : Int
  lastFailure : Int
  totalRequests : Int
  totalLatency : Int
  deriving DecidableEq, Repr

/-- A freshly seeded peer record (`seedPeerList`): weight 5, counters 0. -/
def seedPeer (ip : String) (now : Int) : PeerInfo :=
  { ipAddress := ip, weight := 5, failureCount := 0, successCount := 0
    lastCheck := now, lastFailure := 0, totalRequests := 0, totalLatency := 0 }

/-- Function `adjustPeerStats` (part_002 lines 415-435): returns the updated
record and whether the ip was inserted into the offline blacklist. -/
def adjustPeerStats (peer : PeerInfo) (success : Bool) (latency now : Int) :
    PeerInfo × Bool :=
  let p := { peer with totalRequests := peer.totalRequests + 1
                       totalLatency := peer.totalLatency + latency }
  if success then
    ({ p with successCount := p.successCount + 1
              weight := min (p.weight + 1) 10
              failureCount := 0
              lastCheck := now }, false)
  else
    let q := { p with failureCount := p.failureCount + 1
                      weight := max (p.weight - 1) 1
                      lastFailure := now
                      lastCheck := now }
    (q, decide (3 ≤ q.failureCount))

/-! ### Peer validation and the `Promise.race` selection
(src/unnamed/part_000 lines 138-167, part_002 lines 503-550)

Each probe's network behaviour is an environment value: whether the
request completed (`ok := false` covers timeouts and transport errors,
which the catch block maps to an invalid verdict), the response headers,
and the time at which the validation promise settles. -/

structure ProbeResponse where
  ok : Bool
  headers : String → Option String
  settleTime : Nat

structure ValidationEnv where
  /-- Probe outcome per (peer ip, optional key): `headKey` when a key is
  given, `headStore` otherwise. -/
  probe : String → Option String → ProbeResponse

/-- Function `validatePeer`: no key accepts iff `x-has-roothash == "true"`; with
a key iff `x-key-exists == "true"` and `x-generation-hash` equals the
root hash; errors and timeouts give `false`. -/
def validatePeer (env : ValidationEnv) (peer : PeerInfo)
    (rootHash : String) (key : Option String) : Bool :=
  let r := env.probe peer.ipAddress key
  if !r.ok then false
  else
    match key with
    | none => r.headers "x-has-roothash" = some "true"
    | some _ =>
      (r.headers "x-key-exists" = some "true")
        && (r.headers "x-generation-hash" = some rootHash)

/-- A settled promise: its settle time and its value. -/
structure Settled (α : Type) where
  settleTime : Nat
  value : α

/-- Model of `Promise.race` over a list of settled promises: the value of the
earliest to settle, ties broken by list order.  (For the empty list the
race never settles; the routers only race non-empty batches.) -/
def firstSettled {α : Type} : List (Settled α) → Option (Settled α)
  | [] => none
  | p :: ps =>
    match firstSettled ps with
    | none => some p
    | some q => some (if q.settleTime < p.settleTime then q else p)

/-- The validation promise built for one peer: settles with the peer if
it validates, with `null` otherwise. -/
def validationPromise (env : ValidationEnv) (rootHash : String) (key : Option String)
    (peer : PeerInfo) : Settled (Option PeerInfo) :=
  { settleTime := (env.probe peer.ipAddress key).settleTime
    value := if validatePeer env peer rootHash key then some peer else none }

/-- Functions `selectValidPeer` (part_000) / `isValidPeer` (part_002):
`Promise.race` over the batch's validation promises. -/
def selectValidPeer (env : ValidationEnv) (peers : List PeerInfo)
    (rootHash : String) (key : Option String) : Option PeerInfo :=
  match firstSettled (peers.map (validationPromise env rootHash key)) with
  | none => none
  | some s => s.value

/-! ### Key-aware selection with fallback (src/unnamed/part_000 lines 186-231)

`while (peers.length > 0 && !validPeer) validPeer = await
selectValidPeer(peers.splice(0, 5), ...)` consumes the list in batches
of five.  node-cache returns clones (`useClones` defaults to true), so
the fallback's re-`get` starts again from the full seeded list. -/

def batchLoop (env : ValidationEnv) (rootHash : String) (key : Option String) :
    List PeerInfo → Option PeerInfo
  | [] => none
  | p :: rest =>
    match selectValidPeer env ((p :: rest).take 5) rootHash key with
    | some q => some q
    | none => batchLoop env rootHash key ((p :: rest).drop 5)
  termination_by peers => peers.length
  decreasing_by simp [List.length_drop]; omega

structure KeySelResult where
  validPeer : Option PeerInfo
  peerForKeyFound : Bool
  deriving Repr

/-- The selection phase of part_000's `networkRouter`: with a key, first
search for a key-validated peer; if that fails, re-read the cache and
search again validating the root hash only. -/
def selectWithKeyFallback (env : ValidationEnv) (cachePeers : List PeerInfo)
    (rootHash : String) (key : String) : KeySelResult :=
  let keyed := if key.isEmpty then none else batchLoop env rootHash (some key) cachePeers
  match keyed with
  | some p => { validPeer := some p, peerForKeyFound := true }
  | none => { validPeer := batchLoop env rootHash none cachePeers, peerForKeyFound := false }

/-- part_000's `pathRewrite`:
`/<chain>.<store>.<root>` plus `/<key>` only when `peerForKeyFound`. -/
def upstreamPath (chainName storeId rootHash key : String) (peerForKeyFound : Bool) :
    String :=
  "/" ++ chainName ++ "." ++ storeId ++ "." ++ rootHash
    ++ (if peerForKeyFound then "/" ++ key else "")

/-! ### Blended selection and the candidate loop (src/unnamed/part_002 lines 440-605) -/

/-- The subtraction scan of `getWeightedRandomPeer`: return the first peer at
which the running weight drops to 0 or below. -/
def wrpGo : List PeerInfo → Rat → Option PeerInfo
  | [], _ => none
  | p :: ps, r => if r - (p.weight : Rat) ≤ 0 then some p else wrpGo ps (r - (p.weight : Rat))

/-- Function `getWeightedRandomPeer`: `randomWeight` is the already-drawn value
`Math.random() * totalWeight`; falls back to `peers[0]`. -/
def getWeightedRandomPeer (peers : List PeerInfo) (randomWeight : Rat) : Option PeerInfo :=
  match wrpGo peers randomWeight with
  | some p => some p
  | none => peers.head?

/-- Per-process `activeConnections` map: `none` models a missing key. -/
def ConnMap : Type := String → Option Int

/-- Function `getLeastConnectionsPeer`: among peers whose ip has an
`activeConnections` entry, the one with the fewest connections, earlier
peers winning ties; `none` models the TypeError JS `reduce` throws on an
empty array. -/
def getLeastConnectionsPeer (ac : ConnMap) (peers : List PeerInfo) : Option PeerInfo :=
  match peers.filter (fun p => (ac p.ipAddress).isSome) with
  | [] => none
  | q :: qs =>
    some (qs.foldl (fun minPeer p =>
      if (ac p.ipAddress).getD 0 < (ac minPeer.ipAddress).getD 0 then p else minPeer) q)

/-- Average-latency comparison with `Infinity` for peers without
requests: `p` strictly better than `best`. -/
def avgLatencyLt (p best : PeerInfo) : Bool :=
  if 0 < p.totalRequests then
    if 0 < best.totalRequests then
      (p.totalLatency : Rat) / (p.totalRequests : Rat)
        < (best.totalLatency : Rat) / (best.totalRequests : Rat)
    else true
  else false

def getLowestLatencyPeer : List PeerInfo → Option PeerInfo
  | [] => none
  | q :: qs => some (qs.foldl (fun best p => if avgLatencyLt p best then p else best) q)

/-- Success-rate comparison with rate 0 for peers without requests:
`p` strictly better than `best`. -/
def successRateGt (p best : PeerInfo) : Bool :=
  (if 0 < p.totalRequests then (p.successCount : Rat) / (p.totalRequests : Rat) else 0)
    > (if 0 < best.totalRequests then (best.successCount : Rat) / (best.totalRequests : Rat) else 0)

def getBestSuccessRatePeer : List PeerInfo → Option PeerInfo
  | [] => none
  | q :: qs => some (qs.foldl (fun best p => if successRateGt p best then p else best) q)

/-- One iteration's random draws: the weighted-random value and the
three 0.5-probability override coins. -/
structure Draw where
  wrand : Rat
  useLeastConn : Bool
  useLatency : Bool
  useSuccessRate : Bool
  deriving Repr

/-- The blended per-iteration selection (part_002 lines 581-584): start
from the weighted-random choice, then each of the three overrides
replaces it when its coin comes up; `none` propagates the empty-list
corner cases as the thrown exception. -/
def selectPeer (ac : ConnMap) (peers : List PeerInfo) (d : Draw) : Option PeerInfo :=
  (getWeightedRandomPeer peers d.wrand).bind fun p0 =>
    ((if d.useLeastConn then getLeastConnectionsPeer ac peers else some p0).bind fun p1 =>
      ((if d.useLatency then getLowestLatencyPeer peers else some p1).bind fun p2 =>
        if d.useSuccessRate then getBestSuccessRatePeer peers else some p2))

/-- Result of running the candidate loop against a finite prefix of the
random-draw stream. -/
inductive RunResult where
  | found (p : PeerInfo) : RunResult
  /-- Guard `peers.length > triedPeers.size` failed. -/
  | exhausted : RunResult
  /-- A selection helper threw (empty reduce). -/
  | threw : RunResult
  /-- The supplied draws ran out with the loop still going. -/
  | running (tried : Finset String) : RunResult
  deriving DecidableEq

/-- The set of ip addresses of a peer list. -/
def ipSet (peers : List PeerInfo) : Finset String :=
  (peers.map (fun p => p.ipAddress)).toFinset

/-- The candidate loop (part_002 lines 574-600): select with the
blended policy, skip already-tried ips, validate one-peer batches via
the race, record failures in `triedPeers`. -/
def loopRun (env : ValidationEnv) (rootHash : String) (ac : ConnMap)
    (peers : List PeerInfo) : List Draw → Finset String → RunResult
  | [], tried => .running tried
  | d :: ds, tried =>
    if peers.length > tried.card then
      match selectPeer ac peers d with
      | none => .threw
      | some p =>
        if p.ipAddress ∈ tried then loopRun env rootHash ac peers ds tried
        else if (selectValidPeer env [p] rootHash none).isSome then .found p
        else loopRun env rootHash ac peers ds (insert p.ipAddress tried)
    else .exhausted

/-! ### `activeConnections` transitions (part_002 lines 342-369, 607-644)

Seeding sets the counter of every sampled ip to 0; dispatching a request
runs `activeConnections[ip] += 1`; proxy completion and proxy error run
`activeConnections[ip] -= 1` — without any clamp.  (Arithmetic on a
missing key would be `NaN` in JS; the events below only ever touch
seeded ips, where the entry is present.) -/

inductive ConnEvent where
  | seed (ips : List String) : ConnEvent
  | dispatch (ip : String) : ConnEvent
  | complete (ip : String) : ConnEvent
  | fail (ip : String) : ConnEvent

def connStep (ac : ConnMap) : ConnEvent → ConnMap
  | .seed ips => fun x => if x ∈ ips then some 0 else ac x
  | .dispatch ip => fun x => if x = ip then (ac x).map (· + 1) else ac x
  | .complete ip => fun x => if x = ip then (ac x).map (· - 1) else ac x
  | .fail ip => fun x => if x = ip then (ac x).map (· - 1) else ac x

def connRun (events : List ConnEvent) : ConnMap :=
  events.foldl connStep (fun _ => none)

/-! ### Concrete scenarios referenced by the claim theorems -/

def peerA : PeerInfo := seedPeer "10.0.0.1" 0

def peerB : PeerInfo := seedPeer "10.0.0.2" 0

/-- Probe environment where peer 10.0.0.1 settles first (time 1) without
the root hash and peer 10.0.0.2 settles later (time 2) holding it. -/
def raceDemoEnv : ValidationEnv where
  probe := fun ip _ =>
    if ip = "10.0.0.2" then
      { ok := true, settleTime := 2
        headers := fun h => if h = "x-has-roothash" then some "true" else none }
    else
      { ok := true, settleTime := 1
        headers := fun h => if h = "x-has-roothash" then some "false" else none }

/-- Seed an ip, dispatch a request to it, re-seed (zeroing the counter)
while the request is in flight, then observe the proxy completion. -/
def connDemoEvents : List ConnEvent :=
  [.seed ["203.0.113.7"], .dispatch "203.0.113.7", .seed ["203.0.113.7"],
   .complete "203.0.113.7"]

def seg64 : List Char := List.replicate 64 'a'

/-- A path whose 64-character first segment repeats three times. -/
def triplePath : List Char := '/' :: seg64 ++ '/' :: seg64 ++ '/' :: seg64

/-- Three equal leading segments of length >= 64: the segment-list shape
on which one `removeDuplicatePathPart` pass leaves another duplicate. -/
def tripleHeadedSegs : List (List Char) → Bool
  | a :: b :: c :: _ => a = b && (b = c && 64 ≤ a.length)
  | _ => false

def hasTripleHead (p : List Char) : Bool := tripleHeadedSegs (segments p)

def c8PeerA : PeerInfo := seedPeer "198.51.100.1" 0

def c8PeerB : PeerInfo := seedPeer "198.51.100.2" 0

def c8Ac : ConnMap := fun _ => some 0

/-- Environment in which no peer has the root hash. -/
def c8Env : ValidationEnv where
  probe := fun _ _ =>
    { ok := true, settleTime := 1
      headers := fun h => if h = "x-has-roothash" then some "false" else none }

/-- A draw whose weighted-random value 0 always lands on the first peer
and which takes none of the three overrides. -/
def c8Draw : Draw := { wrand := 0, useLeastConn := false, useLatency := false, useSuccessRate := false }

/-- Run the candidate loop for `n` iterations of the constant draw. -/
def c8Run (n : Nat) : RunResult :=
  loopRun c8Env "r" c8Ac [c8PeerA, c8PeerB] (List.replicate n c8Draw) ∅

def isStillRunning : RunResult → Bool
  | .running _ => true
  | _ => false

/-- The candidate loop ever escapes (finds a peer, exhausts the guard,
or throws) on the constant-draw stream. -/
def c8LoopEscapes : Prop := ∃ n, isStillRunning (c8Run n) = false

def wkReq : UdiRequest where
  originalUrl := "/.well-known/acme-challenge/token".toList
  xOriginPath := none
  cloudFront := false
  host := []
  referrer := []
  cookie := none
  fetchedRootHash := []

def wkEnv : RouterEnv where
  cache := fun _ => none
  offline := fun _ => false

def c5Peer : PeerInfo := seedPeer "192.0.2.1" 0

/-- Environment whose single peer validates both the root hash and any
key probe for root hash "r". -/
def c5Env : ValidationEnv where
  probe := fun _ _ =>
    { ok := true, settleTime := 1
      headers := fun h =>
        if h = "x-has-roothash" then some "true"
        else if h = "x-key-exists" then some "true"
        else if h = "x-generation-hash" then some "r" else none }

def c6Store : List Char := List.replicate 64 'a'

/-- A cookie whose storeId differs from the request's but whose rootHash
matches it. -/
def c6Cookie : UdiCookie where
  chainName := some ("chia".toList)
  storeId := some (List.replicate 64 'b')
  rootHash := some ("r1".toList)

/-- Request with an invalid storeId ("bogus") and a cookie with every
field missing. -/
def c10Req : UdiRequest where
  originalUrl := "/bogus".toList
  xOriginPath := none
  cloudFront := false
  host := []
  referrer := []
  cookie := some { chainName := none, storeId := none, rootHash := none }
  fetchedRootHash := []

/-! ### Library lemmas about splitting, joining and path normalization -/

theorem splitOnChar_ne_nil (c : Char) (l : List Char) : splitOnChar c l ≠ [] := by
  cases l with
  | nil => simp [splitOnChar]
  | cons x xs =>
    simp only [splitOnChar]
    split
    · simp
    · split <;> simp

theorem not_mem_of_mem_splitOnChar (c : Char) :
    ∀ (l : List Char) (s : List Char), s ∈ splitOnChar c l → c ∉ s := by
  intro l
  induction l with
  | nil =>
    intro s hs
    simp [splitOnChar] at hs
    simp [hs]
  | cons x xs ih =>
    intro s hs
    simp only [splitOnChar] at hs
    by_cases hx : x = c
    · simp [hx] at hs
      rcases hs with h | h
      · simp [h]
      · exact ih s h
    · simp only [if_neg hx] at hs
      rcases hr : splitOnChar c xs with _ | ⟨r, rs⟩
      · rw [hr] at hs
        simp at hs
        subst hs
        simp only [List.mem_singleton, List.mem_cons, List.not_mem_nil, or_false]
        exact fun hc => hx hc.symm
      · rw [hr] at hs
        simp at hs
        rcases hs with h | h
        · subst h
          have hcr : c ∉ r := ih r (by rw [hr]; exact List.mem_cons_self r rs)
          simp [hx, hcr]
          intro hcx
          exact hx hcx.symm
        · exact ih s (by rw [hr]; exact List.mem_cons_of_mem r h)

theorem splitOnChar_eq_singleton (c : Char) :
    ∀ (s : List Char), c ∉ s → splitOnChar c s = [s] := by
  intro s
  induction s with
  | nil => intro; rfl
  | cons x xs ih =>
    intro h
    have hx : ¬ x = c := fun hc => h (by simp [hc])
    have hxs : c ∉ xs := fun hc => h (List.mem_cons_of_mem x hc)
    simp only [splitOnChar, if_neg hx, ih hxs]

theorem splitOnChar_append (c : Char) :
    ∀ (a t : List Char), c ∉ a →
      splitOnChar c (a ++ c :: t) = a :: splitOnChar c t := by
  intro a
  induction a with
  | nil => intro t _; simp [splitOnChar]
  | cons x xs ih =>
    intro t h
    have hx : ¬ x = c := fun hc => h (by simp [hc])
    have hxs : c ∉ xs := fun hc => h (List.mem_cons_of_mem x hc)
    simp only [List.cons_append, splitOnChar, if_neg hx]
    rw [List.append_eq, ih t hxs]

theorem segments_joinSegs :
    ∀ (l : List (List Char)),
      (∀ s ∈ l, s ≠ [] ∧ '/' ∉ s) → segments (joinSegs l) = l := by
  intro l
  induction l with
  | nil => intro; rfl
  | cons a rest ih =>
    intro h
    have ha : a ≠ [] ∧ '/' ∉ a := h a (List.mem_cons_self a rest)
    cases rest with
    | nil =>
      simp only [joinSegs, segments, splitOnChar_eq_singleton '/' a ha.2]
      simp [List.filter, List.length_pos.mpr ha.1]
    | cons b rest2 =>
      have hstep : joinSegs (a :: b :: rest2) = a ++ '/' :: joinSegs (b :: rest2) := rfl
      have hrec : segments (joinSegs (b :: rest2)) = b :: rest2 :=
        ih (fun s hs => h s (List.mem_cons_of_mem a hs))
      simp only [hstep, segments, splitOnChar_append '/' a _ ha.2]
      simp only [segments] at hrec
      simp [List.filter, List.length_pos.mpr ha.1, hrec]

theorem mem_segments (p : List Char) (s : List Char) (hs : s ∈ segments p) :
    s ≠ [] ∧ '/' ∉ s := by
  have h1 := List.of_mem_filter hs
  have h2 := not_mem_of_mem_splitOnChar '/' p s (List.mem_of_mem_filter hs)
  refine ⟨?_, h2⟩
  intro he
  subst he
  simp at h1

theorem segments_slash_cons (t : List Char) :
    segments ('/' :: t) = segments t := by
  simp [segments, splitOnChar, List.filter]

theorem dedupHead_subset (l : List (List Char)) : ∀ s ∈ dedupHead l, s ∈ l := by
  match l with
  | [] => simp [dedupHead]
  | [a] => simp [dedupHead]
  | a :: b :: rest =>
    intro s hs
    simp only [dedupHead] at hs
    split at hs
    · simp only [List.mem_cons] at hs ⊢
      rcases hs with h | h
      · exact Or.inl h
      · exact Or.inr (Or.inr h)
    · exact hs

theorem segments_removeDuplicatePathPart (p : List Char) :
    segments (removeDuplicatePathPart p) = dedupHead (segments p) := by
  unfold removeDuplicatePathPart
  rw [segments_slash_cons]
  exact segments_joinSegs _ (fun s hs => mem_segments p s (dedupHead_subset _ s hs))

theorem adjustPeerStats_weight_bounds (p : PeerInfo) (s : Bool) (l n : Int)
    (h1 : 1 ≤ p.weight) (h2 : p.weight ≤ 10) :
    1 ≤ (adjustPeerStats p s l n).1.weight ∧ (adjustPeerStats p s l n).1.weight ≤ 10 := by
  unfold adjustPeerStats
  cases s <;> simp <;> omega

theorem foldl_adjust_weight_bounds (ops : List (Bool × Int × Int)) :
    ∀ p : PeerInfo, 1 ≤ p.weight → p.weight ≤ 10 →
      1 ≤ (ops.foldl (fun q o => (adjustPeerStats q o.1 o.2.1 o.2.2).1) p).weight ∧
        (ops.foldl (fun q o => (adjustPeerStats q o.1 o.2.1 o.2.2).1) p).weight ≤ 10 := by
  induction ops with
  | nil => intro p h1 h2; exact ⟨h1, h2⟩
  | cons o rest ih =>
    intro p h1 h2
    have h := adjustPeerStats_weight_bounds p o.1 o.2.1 o.2.2 h1 h2
    simpa using ih _ h.1 h.2

/-- C3: registry peers are seeded with weight 5 and `adjustPeerStats`
moves the weight only to `min (weight+1) 10` on success or
`max (weight-1) 1` on failure, so along every sequence of successes and
failures the weight stays within `[1, 10]`. -/
theorem claim_C3_weight_invariant (ip : String) (now : Int)
    (ops : List (Bool × Int × Int)) :
    (seedPeer ip now).weight = 5 ∧
      1 ≤ (ops.foldl (fun q o => (adjustPeerStats q o.1 o.2.1 o.2.2).1) (seedPeer ip now)).weight ∧
      (ops.foldl (fun q o => (adjustPeerStats q o.1 o.2.1 o.2.2).1) (seedPeer ip now)).weight ≤ 10 := by
  refine ⟨rfl, ?_⟩
  exact foldl_adjust_weight_bounds ops (seedPeer ip now) (by simp [seedPeer]) (by simp [seedPeer])

/-- C2 (code bug): the proxy decrements `activeConnections[ip]` without
any clamp, so after a re-seed zeroes the counter while a request is in
flight, the completion of that request drives the counter to -1 instead
of the claimed floor of 0. -/
theorem claim_C2_counter_goes_negative :
    connRun connDemoEvents "203.0.113.7" = some (-1) ∧
      connRun connDemoEvents "203.0.113.7" ≠ some 0 := by
  constructor <;> decide

/-- C1 (code bug): `selectValidPeer`/`isValidPeer` race the batch with
`Promise.race`, which settles with the FIRST SETTLED validation — here
the earlier, failing probe of 10.0.0.1 — and therefore returns `null`
even though 10.0.0.2 in the same batch validates, contradicting the
function's own contract of returning the first valid peer with `null`
only when none pass. -/
theorem claim_C1_race_returns_null_despite_valid_peer :
    selectValidPeer raceDemoEnv [peerA, peerB] "r" none = none ∧
      validatePeer raceDemoEnv peerB "r" none = true := by
  constructor <;> decide

theorem dedupHead_idem : ∀ (l : List (List Char)), tripleHeadedSegs l = false →
    dedupHead (dedupHead l) = dedupHead l
  | [], _ => rfl
  | [_], _ => rfl
  | a :: b :: rest, h => by
    by_cases hc : a = b ∧ 64 ≤ a.length
    · obtain ⟨hab, hal⟩ := hc
      subst hab
      have hd1 : dedupHead (a :: a :: rest) = a :: rest := by simp [dedupHead, hal]
      rw [hd1]
      cases rest with
      | nil => rfl
      | cons c rest2 =>
        have hac : ¬ a = c := by
          intro h1
          subst h1
          simp [tripleHeadedSegs, hal] at h
        simp [dedupHead, hac]
    · simp [dedupHead, hc]

/-- C7 counterexample: on a path whose >= 64-character first segment
appears three times in a row, `removeDuplicatePathPart` removes only one
duplicate, so applying it twice removes another — it is not idempotent. -/
theorem claim_C7_counterexample :
    removeDuplicatePathPart (removeDuplicatePathPart triplePath)
      ≠ removeDuplicatePathPart triplePath := by
  decide

/-- C7 amended: `removeDuplicatePathPart` is idempotent on every path
whose segment list does not begin with three equal segments of length
at least 64 (on triple repeats a second application drops one more
copy). -/
theorem claim_C7_amended (p : List Char) (h : hasTripleHead p = false) :
    removeDuplicatePathPart (removeDuplicatePathPart p) = removeDuplicatePathPart p := by
  have hseg := segments_removeDuplicatePathPart p
  show '/' :: joinSegs (dedupHead (segments (removeDuplicatePathPart p)))
      = removeDuplicatePathPart p
  rw [hseg, dedupHead_idem (segments p) h]
  rfl

/-- C7 amended, witnessed at the path `/x/y`. -/
theorem claim_C7_amended_witness :
    hasTripleHead ("/x/y".toList) = false ∧
      removeDuplicatePathPart (removeDuplicatePathPart ("/x/y".toList))
        = removeDuplicatePathPart ("/x/y".toList) :=
  ⟨by decide, claim_C7_amended ("/x/y".toList) (by decide)⟩

/-- C4 counterexample: a single dot-part of length other than 64 does
NOT leave the storeId empty — the code also assigns the segment to the
storeId (`"/bogus"` parses with storeId `"bogus"`); and a segment with
four or more dot-parts does NOT become the storeId — no branch assigns,
so the storeId stays empty. -/
theorem claim_C4_counterexample :
    (parseUdiSegment ("/bogus".toList)).storeId = "bogus".toList ∧
      "bogus".toList ≠ ([] : List Char) ∧
      (parseUdiSegment ("/a.b.c.d".toList)).storeId = [] := by
  refine ⟨by decide, by decide, by decide⟩

/-- C4 amended: the UDI-segment parser agrees everywhere with the
amended grammar: 3 parts are `(chain, store, root)`; 2 parts are
`(store, root)` when the first has length 64 and `(chain, store)`
otherwise; 1 part of length 64 is the storeId alone; 1 part of another
length is folded into the subpath AND recorded as the (invalid) storeId;
4 or more parts leave the storeId empty (invalid) and drop the segment. -/
theorem claim_C4_amended (p : List Char) : parseUdiSegment p = udiGrammarAmended p := by
  simp only [parseUdiSegment, udiGrammarAmended]
  generalize (splitOnChar '.' ((segments p).headD [])) = parts
  rcases parts with _ | ⟨a, _ | ⟨b, _ | ⟨c, _ | ⟨d, rest⟩⟩⟩⟩
  · simp
  · by_cases h64 : a.length = 64 <;> simp [h64]
  · by_cases h64 : a.length = 64 <;> simp [h64]
  · simp
  · simp

/-- C6: with a valid 64-character storeId, a missing chainName or
rootHash, and a cookie present, the missing fields are adopted from the
cookie exactly when the literal condition
`!storeId || cookieStoreId === storeId || cookieRootHash === rootHash`
holds — and in particular a cookie whose rootHash equals the request's
rootHash is adopted even when the storeIds differ. -/
theorem claim_C6_cookie_adoption (storeId : List Char) (cn rh : Option (List Char))
    (c : UdiCookie) (_h64 : storeId.length = 64)
    (hmiss : jsFalsy cn = true ∨ jsFalsy rh = true) :
    (adoptCookie storeId cn rh (some c)
        = if storeId.isEmpty || jsStrictEq c.storeId (some storeId)
              || jsStrictEq c.rootHash rh
          then (jsOr cn c.chainName, jsOr rh c.rootHash) else (cn, rh)) ∧
      (c.storeId ≠ some storeId → jsStrictEq c.rootHash rh = true →
        adoptCookie storeId cn rh (some c) = (jsOr cn c.chainName, jsOr rh c.rootHash)) := by
  have hguard : (jsFalsy cn || jsFalsy rh) = true := by
    rcases hmiss with h | h <;> simp [h]
  constructor
  · simp [adoptCookie, hguard]
  · intro _ hrt
    simp [adoptCookie, hguard, hrt]

/-- C6, witnessed: cookie storeId `bbbb…`, request storeId `aaaa…`,
matching rootHash `"r1"`, chainName missing — the cookie's chainName is
adopted. -/
theorem claim_C6_cookie_adoption_witness :
    c6Store.length = 64 ∧
      adoptCookie c6Store none (some ("r1".toList)) (some c6Cookie)
        = (jsOr none c6Cookie.chainName, jsOr (some ("r1".toList)) c6Cookie.rootHash) := by
  refine ⟨by decide, ?_⟩
  exact (claim_C6_cookie_adoption c6Store none (some ("r1".toList)) c6Cookie (by decide)
      (Or.inl (by decide))).2 (by decide) (by decide)

/-- C10: whenever the parsed storeId is invalid and a `udiData` cookie
is present, `parseUdi` answers 302 to
`/<cookie.chainName>.<cookie.storeId><subpath>` without validating the
cookie's fields (missing fields interpolate as the text "undefined"),
so the 400 response and the Referer redirect are reachable only without
a cookie. -/
theorem claim_C10_invalid_storeId_cookie (req : UdiRequest)
    (hwk : ("/.well-known".toList).isPrefixOf req.originalUrl = false)
    (hxo : req.xOriginPath = none) (hcf : req.cloudFront = false)
    (hbad : (parsedOf req).storeId.length ≠ 64) :
    (∀ c, req.cookie = some c →
        parseUdiModel req = .redirect
          ('/' :: (interp c.chainName ++ '.' :: interp c.storeId
            ++ (parsedOf req).appendPath))) ∧
      (req.cookie = none → req.referrer ≠ [] →
        parseUdiModel req = .redirect (req.referrer ++ (parsedOf req).appendPath)) ∧
      (req.cookie = none → req.referrer = [] →
        parseUdiModel req = .badRequest ("Invalid or missing storeId.".toList)) := by
  have hnot : ¬ (("/.well-known".toList).isPrefixOf req.originalUrl = true) := by
    rw [hwk]
    exact Bool.false_ne_true
  have hmodel : parseUdiModel req
      = parseUdiResolve req (parsedOf req) ((splitOnChar '?' req.originalUrl).get? 1) := by
    unfold parseUdiModel
    rw [if_neg hnot]
  have hred : ∀ u, buildRedirect req u = .redirect u := by
    intro u
    simp [buildRedirect, applyOriginPathFilter, hxo, applyHostFilter, hcf]
  refine ⟨?_, ?_, ?_⟩
  · intro c hc
    rw [hmodel]
    unfold parseUdiResolve
    rw [if_pos (by simp [hbad]), hc]
    simp [hred]
  · intro hc href
    have hne : req.referrer.isEmpty = false := by
      cases hr : req.referrer with
      | nil => exact absurd hr href
      | cons x t => rfl
    rw [hmodel]
    unfold parseUdiResolve
    rw [if_pos (by simp [hbad]), hc]
    simp [hne, hred]
  · intro hc href
    have he : req.referrer.isEmpty = true := by rw [href]; rfl
    rw [hmodel]
    unfold parseUdiResolve
    rw [if_pos (by simp [hbad]), hc]
    simp [he]

/-- C10, witnessed: request `/bogus` with an all-empty cookie redirects
to `/undefined.undefined/bogus`. -/
theorem claim_C10_invalid_storeId_cookie_witness :
    ("/.well-known".toList).isPrefixOf c10Req.originalUrl = false ∧
      (parsedOf c10Req).storeId.length ≠ 64 ∧
      parseUdiModel c10Req = .redirect ("/undefined.undefined/bogus".toList) := by
  refine ⟨by decide, by decide, ?_⟩
  have h := (claim_C10_invalid_storeId_cookie c10Req (by decide) rfl rfl (by decide)).1
      { chainName := none, storeId := none, rootHash := none } rfl
  rw [h]
  decide

/-- C9 counterexample: a request under `/.well-known` does NOT pass
through untouched — after `parseUdi`'s early `next()` the request
reaches `networkRouter`, which runs with an undefined storeId and
responds 500 (node-cache rejects the undefined cache key and the
handler's catch answers with the error message). -/
theorem claim_C9_counterexample :
    appPipeline wkReq wkEnv 0 = .routed .caughtError ∧
      appPipeline wkReq wkEnv 0 ≠ .untouched := by
  constructor <;> decide

/-- C9 amended: `/.well-known/*` requests bypass the UDI resolver — no
redirect, no 400, no cookie, no field attached — but they are handed on
to the peer-routing middleware, which executes with an undefined
storeId and responds 500 rather than leaving the request untouched; no
peer is selected and nothing is proxied. -/
theorem claim_C9_amended (req : UdiRequest) (env : RouterEnv) (pick : Nat)
    (hwk : ("/.well-known".toList).isPrefixOf req.originalUrl = true) :
    parseUdiModel req = .next ∧
      appPipeline req env pick = .routed .caughtError := by
  have h1 : parseUdiModel req = .next := by
    unfold parseUdiModel
    rw [if_pos hwk]
  have hne : req.originalUrl ≠ "/health".toList := by
    intro he
    rw [he] at hwk
    exact absurd hwk (by decide)
  refine ⟨h1, ?_⟩
  unfold appPipeline
  rw [if_neg hne]
  simp [h1, networkRouterSimple]

/-- C9 amended, witnessed on `/.well-known/acme-challenge/token`. -/
theorem claim_C9_amended_witness :
    ("/.well-known".toList).isPrefixOf wkReq.originalUrl = true ∧
      (parseUdiModel wkReq = .next ∧ appPipeline wkReq wkEnv 0 = .routed .caughtError) :=
  ⟨by decide, claim_C9_amended wkReq wkEnv 0 (by decide)⟩

/-- C5: with a key in the request path, selection first runs the batch
loop validating with the key; the fallback loop validating the root hash
alone runs exactly when the keyed search found nobody; and the rewritten
upstream path carries the `/<key>` suffix exactly when a key-validated
peer was found. -/
theorem claim_C5_key_fallback (env : ValidationEnv) (peers : List PeerInfo)
    (chainName storeId rootHash key : String) (hk : key.isEmpty = false) :
    ((selectWithKeyFallback env peers rootHash key).peerForKeyFound
        = (batchLoop env rootHash (some key) peers).isSome) ∧
      ((selectWithKeyFallback env peers rootHash key).peerForKeyFound = true →
        (selectWithKeyFallback env peers rootHash key).validPeer
          = batchLoop env rootHash (some key) peers) ∧
      ((selectWithKeyFallback env peers rootHash key).peerForKeyFound = false →
        (selectWithKeyFallback env peers rootHash key).validPeer
          = batchLoop env rootHash none peers) ∧
      upstreamPath chainName storeId rootHash key
          (selectWithKeyFallback env peers rootHash key).peerForKeyFound
        = "/" ++ chainName ++ "." ++ storeId ++ "." ++ rootHash
          ++ (if (batchLoop env rootHash (some key) peers).isSome then "/" ++ key else "") := by
  have hkeyed : (if key.isEmpty then none else batchLoop env rootHash (some key) peers)
      = batchLoop env rootHash (some key) peers := by rw [hk]; simp
  unfold selectWithKeyFallback
  rw [hkeyed]
  cases hbl : batchLoop env rootHash (some key) peers with
  | some p => simp [upstreamPath]
  | none => simp [upstreamPath]

/-- C5, witnessed: one peer that key-validates; the keyed search finds
it and the upstream path gets the key suffix. -/
theorem claim_C5_key_fallback_witness :
    String.isEmpty "k" = false ∧
      (selectWithKeyFallback c5Env [c5Peer] "r" "k").peerForKeyFound
        = (batchLoop c5Env "r" (some "k") [c5Peer]).isSome ∧
      upstreamPath "chia" "s" "r" "k"
          (selectWithKeyFallback c5Env [c5Peer] "r" "k").peerForKeyFound
        = "/chia.s.r" ++ (if (batchLoop c5Env "r" (some "k") [c5Peer]).isSome
            then "/k" else "") := by
  have h := claim_C5_key_fallback c5Env [c5Peer] "chia" "s" "r" "k" (by decide)
  exact ⟨by decide, h.1, h.2.2.2⟩

theorem foldl_choice_mem {α : Type} (f : α → α → α)
    (hf : ∀ best p, f best p = p ∨ f best p = best) :
    ∀ (qs : List α) (q : α), qs.foldl f q ∈ q :: qs := by
  intro qs
  induction qs with
  | nil => intro q; simp
  | cons p ps ih =>
    intro q
    simp only [List.foldl_cons]
    have h := ih (f q p)
    rcases List.mem_cons.mp h with h1 | h1
    · rw [h1]
      rcases hf q p with h2 | h2 <;> rw [h2] <;> simp
    · exact List.mem_cons.mpr (Or.inr (List.mem_cons.mpr (Or.inr h1)))

theorem ite_choice {α : Type} (c : Prop) [Decidable c] (a b : α) :
    (if c then a else b) = a ∨ (if c then a else b) = b := by
  by_cases hc : c
  · exact Or.inl (if_pos hc)
  · exact Or.inr (if_neg hc)

theorem wrpGo_mem : ∀ (peers : List PeerInfo) (r : Rat) (p : PeerInfo),
    wrpGo peers r = some p → p ∈ peers := by
  intro peers
  induction peers with
  | nil => intro r p h; simp [wrpGo] at h
  | cons q qs ih =>
    intro r p h
    simp only [wrpGo] at h
    by_cases hc : r - (q.weight : Rat) ≤ 0
    · rw [if_pos hc] at h
      injection h with h
      exact h ▸ List.mem_cons_self q qs
    · rw [if_neg hc] at h
      exact List.mem_cons.mpr (Or.inr (ih _ p h))

theorem getWeightedRandomPeer_eq_none (peers : List PeerInfo) (r : Rat)
    (hw : wrpGo peers r = none) : getWeightedRandomPeer peers r = peers.head? := by
  unfold getWeightedRandomPeer
  rw [hw]

theorem getWeightedRandomPeer_eq_some (peers : List PeerInfo) (r : Rat) (q : PeerInfo)
    (hw : wrpGo peers r = some q) : getWeightedRandomPeer peers r = some q := by
  unfold getWeightedRandomPeer
  rw [hw]

theorem getWeightedRandomPeer_mem (peers : List PeerInfo) (r : Rat) (p : PeerInfo)
    (h : getWeightedRandomPeer peers r = some p) : p ∈ peers := by
  rcases hw : wrpGo peers r with _ | q
  · rw [getWeightedRandomPeer_eq_none peers r hw] at h
    exact List.mem_of_mem_head? h
  · rw [getWeightedRandomPeer_eq_some peers r q hw] at h
    injection h with h
    exact h ▸ wrpGo_mem peers r q hw

theorem getLeastConnectionsPeer_eq (ac : ConnMap) (peers : List PeerInfo)
    (q : PeerInfo) (qs : List PeerInfo)
    (hf : peers.filter (fun p => (ac p.ipAddress).isSome) = q :: qs) :
    getLeastConnectionsPeer ac peers
      = some (qs.foldl (fun minPeer p =>
          if (ac p.ipAddress).getD 0 < (ac minPeer.ipAddress).getD 0 then p else minPeer) q) := by
  unfold getLeastConnectionsPeer
  rw [hf]

theorem getLeastConnectionsPeer_mem (ac : ConnMap) (peers : List PeerInfo) (p : PeerInfo)
    (h : getLeastConnectionsPeer ac peers = some p) : p ∈ peers := by
  rcases hf : peers.filter (fun q => (ac q.ipAddress).isSome) with _ | ⟨q, qs⟩
  · unfold getLeastConnectionsPeer at h
    rw [hf] at h
    simp at h
  · rw [getLeastConnectionsPeer_eq ac peers q qs hf] at h
    injection h with h
    have hm := foldl_choice_mem
      (fun minPeer pr =>
        if (ac pr.ipAddress).getD 0 < (ac minPeer.ipAddress).getD 0 then pr else minPeer)
      (fun best pr => ite_choice _ pr best) qs q
    rw [h] at hm
    have hp : p ∈ peers.filter (fun q => (ac q.ipAddress).isSome) := by rw [hf]; exact hm
    exact List.mem_of_mem_filter hp

theorem getLowestLatencyPeer_mem (peers : List PeerInfo) (p : PeerInfo)
    (h : getLowestLatencyPeer peers = some p) : p ∈ peers := by
  cases peers with
  | nil => simp [getLowestLatencyPeer] at h
  | cons q qs =>
    simp only [getLowestLatencyPeer] at h
    injection h with h
    have hm := foldl_choice_mem (fun best pr => if avgLatencyLt pr best then pr else best)
      (fun best pr => ite_choice _ pr best) qs q
    exact h ▸ hm

theorem getBestSuccessRatePeer_mem (peers : List PeerInfo) (p : PeerInfo)
    (h : getBestSuccessRatePeer peers = some p) : p ∈ peers := by
  cases peers with
  | nil => simp [getBestSuccessRatePeer] at h
  | cons q qs =>
    simp only [getBestSuccessRatePeer] at h
    injection h with h
    have hm := foldl_choice_mem (fun best pr => if successRateGt pr best then pr else best)
      (fun best pr => ite_choice _ pr best) qs q
    exact h ▸ hm

theorem selectPeer_mem (ac : ConnMap) (peers : List PeerInfo) (d : Draw) (p : PeerInfo)
    (h : selectPeer ac peers d = some p) : p ∈ peers := by
  unfold selectPeer at h
  rw [Option.bind_eq_some] at h
  obtain ⟨p0, h0, h⟩ := h
  rw [Option.bind_eq_some] at h
  obtain ⟨p1, h1, h⟩ := h
  rw [Option.bind_eq_some] at h
  obtain ⟨p2, h2, h⟩ := h
  have hp0 : p0 ∈ peers := getWeightedRandomPeer_mem peers d.wrand p0 h0
  have hp1 : p1 ∈ peers := by
    by_cases hb : d.useLeastConn
    · rw [if_pos hb] at h1
      exact getLeastConnectionsPeer_mem ac peers p1 h1
    · rw [if_neg hb] at h1
      injection h1 with h1
      exact h1 ▸ hp0
  have hp2 : p2 ∈ peers := by
    by_cases hb : d.useLatency
    · rw [if_pos hb] at h2
      exact getLowestLatencyPeer_mem peers p2 h2
    · rw [if_neg hb] at h2
      injection h2 with h2
      exact h2 ▸ hp1
  by_cases hb : d.useSuccessRate
  · rw [if_pos hb] at h
    exact getBestSuccessRatePeer_mem peers p h
  · rw [if_neg hb] at h
    injection h with h
    exact h ▸ hp2

theorem selectPeer_isSome (ac : ConnMap) (peers : List PeerInfo) (d : Draw)
    (hne : peers ≠ []) (hconn : ∀ p ∈ peers, (ac p.ipAddress).isSome) :
    (selectPeer ac peers d).isSome := by
  rcases peers with _ | ⟨q, qs⟩
  · exact absurd rfl hne
  have hw : ∃ p0, getWeightedRandomPeer (q :: qs) d.wrand = some p0 := by
    rcases hg : wrpGo (q :: qs) d.wrand with _ | p
    · exact ⟨q, by rw [getWeightedRandomPeer_eq_none _ _ hg]; rfl⟩
    · exact ⟨p, getWeightedRandomPeer_eq_some _ _ p hg⟩
  have hlc : ∃ p, getLeastConnectionsPeer ac (q :: qs) = some p := by
    have hq : ((ac q.ipAddress).isSome : Bool) = true := hconn q (List.mem_cons_self q qs)
    rcases hf : (q :: qs).filter (fun p => (ac p.ipAddress).isSome) with _ | ⟨a, rest⟩
    · exfalso
      have hmem : q ∈ (q :: qs).filter (fun p => (ac p.ipAddress).isSome) :=
        List.mem_filter.mpr ⟨List.mem_cons_self q qs, hq⟩
      rw [hf] at hmem
      simp at hmem
    · exact ⟨_, getLeastConnectionsPeer_eq ac (q :: qs) a rest hf⟩
  obtain ⟨p0, h0⟩ := hw
  have h1 : ∃ p1, (if d.useLeastConn then getLeastConnectionsPeer ac (q :: qs) else some p0)
      = some p1 := by
    by_cases hb : d.useLeastConn
    · rw [if_pos hb]; exact hlc
    · exact ⟨p0, if_neg hb⟩
  obtain ⟨p1, h1⟩ := h1
  have h2 : ∃ p2, (if d.useLatency then getLowestLatencyPeer (q :: qs) else some p1)
      = some p2 := by
    by_cases hb : d.useLatency
    · rw [if_pos hb]; exact ⟨_, rfl⟩
    · exact ⟨p1, if_neg hb⟩
  obtain ⟨p2, h2⟩ := h2
  have h3 : ∃ p3, (if d.useSuccessRate then getBestSuccessRatePeer (q :: qs) else some p2)
      = some p3 := by
    by_cases hb : d.useSuccessRate
    · rw [if_pos hb]; exact ⟨_, rfl⟩
    · exact ⟨p2, if_neg hb⟩
  obtain ⟨p3, h3⟩ := h3
  unfold selectPeer
  rw [h0, Option.some_bind, h1, Option.some_bind, h2, Option.some_bind, h3]
  rfl

theorem loopRun_found (env : ValidationEnv) (rootHash : String) (ac : ConnMap)
    (peers : List PeerInfo) :
    ∀ (ds : List Draw) (tried : Finset String) (p : PeerInfo),
      loopRun env rootHash ac peers ds tried = .found p →
      p ∈ peers ∧ (selectValidPeer env [p] rootHash none).isSome = true := by
  intro ds
  induction ds with
  | nil => intro tried p h; simp [loopRun] at h
  | cons d ds2 ih =>
    intro tried p h
    simp only [loopRun] at h
    split at h
    · split at h
      · simp at h
      · next q hq =>
          split at h
          · exact ih tried p h
          · split at h
            · next hvalid =>
                injection h with h
                exact h ▸ ⟨selectPeer_mem ac peers d _ hq, hvalid⟩
            · exact ih _ p h
    · simp at h

theorem loopRun_running (env : ValidationEnv) (rootHash : String) (ac : ConnMap)
    (peers : List PeerInfo) :
    ∀ (ds : List Draw) (tried t2 : Finset String),
      loopRun env rootHash ac peers ds tried = .running t2 →
      tried ⊆ t2 ∧ t2 ⊆ tried ∪ ipSet peers := by
  intro ds
  induction ds with
  | nil =>
    intro tried t2 h
    simp only [loopRun] at h
    injection h with h
    subst h
    exact ⟨Finset.Subset.refl tried, Finset.subset_union_left⟩
  | cons d ds2 ih =>
    intro tried t2 h
    simp only [loopRun] at h
    split at h
    · split at h
      · simp at h
      · next q hq =>
          split at h
          · exact ih tried t2 h
          · split at h
            · simp at h
            · have hqip : q.ipAddress ∈ ipSet peers := by
                have := selectPeer_mem ac peers d q hq
                simp [ipSet]
                exact ⟨q, this, rfl⟩
              have hrec := ih (insert q.ipAddress tried) t2 h
              refine ⟨?_, ?_⟩
              · exact Finset.Subset.trans (Finset.subset_insert _ _) hrec.1
              · refine Finset.Subset.trans hrec.2 ?_
                rw [Finset.insert_union]
                rw [Finset.insert_subset_iff]
                exact ⟨Finset.mem_union_right tried hqip, Finset.Subset.refl _⟩
    · simp at h

theorem loopRun_ne_threw (env : ValidationEnv) (rootHash : String) (ac : ConnMap)
    (peers : List PeerInfo) (hconn : ∀ p ∈ peers, (ac p.ipAddress).isSome) :
    ∀ (ds : List Draw) (tried : Finset String),
      loopRun env rootHash ac peers ds tried ≠ .threw := by
  intro ds
  induction ds with
  | nil => intro tried; simp [loopRun]
  | cons d ds2 ih =>
    intro tried
    by_cases hguard : peers.length > tried.card
    · have hne : peers ≠ [] := by
        intro he
        rw [he] at hguard
        simp at hguard
      obtain ⟨q, hq⟩ := Option.isSome_iff_exists.mp (selectPeer_isSome ac peers d hne hconn)
      simp only [loopRun]
      rw [if_pos hguard, hq]
      by_cases hmem : q.ipAddress ∈ tried
      · simp only [if_pos hmem]
        exact ih tried
      · simp only [if_neg hmem]
        by_cases hvalid : (selectValidPeer env [q] rootHash none).isSome = true
        · simp [hvalid]
        · simp only [Bool.not_eq_true] at hvalid
          simp [hvalid]
          exact ih _
    · simp [loopRun, hguard]

theorem loopRun_exhausted (env : ValidationEnv) (rootHash : String) (ac : ConnMap)
    (peers : List PeerInfo) (d : Draw) (ds2 : List Draw) (tried : Finset String)
    (hge : peers.length ≤ tried.card) :
    loopRun env rootHash ac peers (d :: ds2) tried = .exhausted := by
  simp only [loopRun]
  rw [if_neg (by omega)]

/-- C8 amended: in the candidate loop, every iteration taken under the
guard `|peers| > |tried|` either returns a validated peer, re-selects
with no state change when the chosen peer was already tried, or adds
exactly one new ip to the tried set; the loop refuses to iterate once
`|tried| >= |peers|`; a found peer is a validated member of the list;
the tried set only grows, within the ips of the list; and no iteration
throws.  (Unconditional termination fails: a draw stream that keeps
re-selecting an already-tried peer loops forever — see the
counterexample.) -/
theorem claim_C8_amended (env : ValidationEnv) (rootHash : String) (ac : ConnMap)
    (peers : List PeerInfo) (ds : List Draw) (tried : Finset String)
    (hconn : ∀ p ∈ peers, (ac p.ipAddress).isSome) :
    (∀ d ds2, ds = d :: ds2 → peers.length > tried.card →
      ∃ p, selectPeer ac peers d = some p ∧ p ∈ peers ∧
        ((loopRun env rootHash ac peers ds tried = .found p ∧
            (selectValidPeer env [p] rootHash none).isSome = true) ∨
          (p.ipAddress ∈ tried ∧
            loopRun env rootHash ac peers ds tried
              = loopRun env rootHash ac peers ds2 tried) ∨
          (p.ipAddress ∉ tried ∧
            loopRun env rootHash ac peers ds tried
              = loopRun env rootHash ac peers ds2 (insert p.ipAddress tried)))) ∧
      (peers.length ≤ tried.card → ds ≠ [] →
        loopRun env rootHash ac peers ds tried = .exhausted) ∧
      (∀ p, loopRun env rootHash ac peers ds tried = .found p →
        p ∈ peers ∧ (selectValidPeer env [p] rootHash none).isSome = true) ∧
      (∀ t2, loopRun env rootHash ac peers ds tried = .running t2 →
        tried ⊆ t2 ∧ t2 ⊆ tried ∪ ipSet peers) ∧
      loopRun env rootHash ac peers ds tried ≠ .threw := by
  refine ⟨?_, ?_, loopRun_found env rootHash ac peers ds tried,
    loopRun_running env rootHash ac peers ds tried,
    loopRun_ne_threw env rootHash ac peers hconn ds tried⟩
  · intro d ds2 hds hguard
    subst hds
    have hne : peers ≠ [] := by
      intro he
      rw [he] at hguard
      simp at hguard
    obtain ⟨p, hp⟩ := Option.isSome_iff_exists.mp (selectPeer_isSome ac peers d hne hconn)
    refine ⟨p, hp, selectPeer_mem ac peers d p hp, ?_⟩
    by_cases hmem : p.ipAddress ∈ tried
    · refine Or.inr (Or.inl ⟨hmem, ?_⟩)
      simp [loopRun, hguard, hp, hmem]
    · by_cases hvalid : (selectValidPeer env [p] rootHash none).isSome = true
      · refine Or.inl ⟨?_, hvalid⟩
        simp [loopRun, hguard, hp, hmem, hvalid]
      · refine Or.inr (Or.inr ⟨hmem, ?_⟩)
        simp only [Bool.not_eq_true] at hvalid
        simp [loopRun, hguard, hp, hmem, hvalid]
  · intro hge hds
    rcases ds with _ | ⟨d, ds2⟩
    · exact absurd rfl hds
    · exact loopRun_exhausted env rootHash ac peers d ds2 tried hge

theorem c8_selectA : selectPeer c8Ac [c8PeerA, c8PeerB] c8Draw = some c8PeerA := by
  norm_num [selectPeer, getWeightedRandomPeer, wrpGo, c8Draw, c8PeerA, c8PeerB, seedPeer]

theorem c8_stuck : ∀ n,
    loopRun c8Env "r" c8Ac [c8PeerA, c8PeerB] (List.replicate n c8Draw)
        {c8PeerA.ipAddress}
      = .running {c8PeerA.ipAddress} := by
  intro n
  induction n with
  | zero => rfl
  | succ m ih =>
    rw [List.replicate_succ]
    simp only [loopRun, c8_selectA]
    rw [if_pos (by simp), if_pos (by simp)]
    exact ih

/-- C8 counterexample: with two peers, peer A already failing
validation, a random stream whose every draw selects A keeps the loop
spinning forever — after A is marked tried each iteration re-selects A
and `continue`s, so the loop never terminates even though the guard
`|peers| > |tried|` stays true. -/
theorem claim_C8_counterexample : ¬ c8LoopEscapes := by
  rintro ⟨n, hn⟩
  cases n with
  | zero => simp [c8Run, loopRun, isStillRunning] at hn
  | succ m =>
    have hvalidA : (selectValidPeer c8Env [c8PeerA] "r" none).isSome = false := by decide
    have h1 : c8Run (m + 1)
        = loopRun c8Env "r" c8Ac [c8PeerA, c8PeerB] (List.replicate m c8Draw)
            (insert c8PeerA.ipAddress ∅) := by
      unfold c8Run
      rw [List.replicate_succ]
      simp only [loopRun, c8_selectA]
      rw [if_pos (by simp), if_neg (by simp), if_neg (by simp [hvalidA])]
    rw [h1, insert_emptyc_eq, c8_stuck m] at hn
    simp [isStillRunning] at hn

/-- C8 amended, witnessed: with one already-tried peer the guard fails
at once and the loop reports exhaustion. -/
theorem claim_C8_amended_witness :
    (∀ p ∈ [c8PeerA], (c8Ac p.ipAddress).isSome) ∧
      loopRun c8Env "r" c8Ac [c8PeerA] [c8Draw] {c8PeerA.ipAddress} = .exhausted := by
  have h := claim_C8_amended c8Env "r" c8Ac [c8PeerA] [c8Draw] {c8PeerA.ipAddress}
    (by intro p _; rfl)
  refine ⟨by intro p _; rfl, h.2.1 (by simp) (by simp)⟩

end DigServer
